import Mathlib

/-!
Verification of the fjc_judges name-normalization and matching pipeline.

This file gives a shallow embedding, in Lean 4, of the core functions of
src/judges/fjc_create.py and src/judges/fjc_match.py:

* time_limit           (fjc_create.py, lines 138-147)
* name_changes         (fjc_create.py, lines 149-163)
* name_perms           (fjc_create.py, lines 165-185)
* encode_senate_vote   (fjc_create.py, lines 128-136)
* make_names_df        (fjc_create.py, lines 187-200)
* convert_judge_name, convert_judge_name_series, make_name_dicts
                       (fjc_match.py, lines 13-68)

pandas DataFrames are embedded as Lean lists of typed records, pandas/Python
strings as Lean String, Python ints as Int (arbitrary precision in both), and
the exact rational arithmetic of the senate-vote ratio as Rat.  Fallible
Python code (IndexError, ValueError, KeyError, ZeroDivisionError) is embedded
with Option results: none marks a raised exception path.
-/

/-! ## Python string primitives used by the pipeline -/

/-- Characters removed by the regex `\.|\,|\[|\]|\'` in name_perms
(fjc_create.py lines 167-169): the five characters period, comma, the two
square brackets and the apostrophe. -/
def isStrippedPunct (c : Char) : Bool :=
  c = '.' || c = ',' || c = '[' || c = ']' || c = '\''

/-- Embedding of `re.sub("\.|\,|\[|\]|\'", '', s)`: delete every occurrence of
the five punctuation characters. -/
def stripPunct (s : String) : String :=
  ⟨s.data.filter (fun c => !(isStrippedPunct c))⟩

/-- Embedding of Python `str.upper()` (the data contains ASCII names, where
Char.toUpper agrees with Python's upper). -/
def pyUpper (s : String) : String :=
  ⟨s.data.map Char.toUpper⟩

/-- Drop leading whitespace characters. -/
def dropWs (cs : List Char) : List Char :=
  cs.dropWhile (fun c => c.isWhitespace)

/-- Embedding of Python `str.strip()`: remove leading and trailing
whitespace. -/
def pyStrip (s : String) : String :=
  ⟨((dropWs s.data).reverse |> dropWs).reverse⟩

/-- Value of a decimal digit list, most significant first; none when the list
is empty or any character is not a digit. -/
def digitsToNat? (cs : List Char) : Option Nat :=
  match cs with
  | [] => none
  | _ =>
    if cs.all Char.isDigit then
      some (cs.foldl (fun n c => 10 * n + (c.toNat - 48)) 0)
    else none

/-- Embedding of Python `int(s)` on strings: strip whitespace, optional sign,
then decimal digits; none when the string is not a well-formed integer
literal (Python raises ValueError there). -/
def pyInt? (s : String) : Option Int :=
  match (pyStrip s).data with
  | '-' :: rest => (digitsToNat? rest).map (fun n => -(n : Int))
  | '+' :: rest => (digitsToNat? rest).map (fun n => (n : Int))
  | cs => (digitsToNat? cs).map (fun n => (n : Int))

/-- Decimal digit characters of a positive number, most significant first;
the first argument is recursion fuel (fuel >= n suffices). -/
def natDigitsAux : Nat → Nat → List Char
  | 0, _ => []
  | fuel + 1, n =>
    if n = 0 then []
    else natDigitsAux fuel (n / 10) ++ [Char.ofNat (48 + n % 10)]

/-- Decimal rendering of a natural number, as Python `str` renders a
non-negative int: no leading zeros, no separators. -/
def natStr (n : Nat) : String :=
  if n = 0 then "0" else ⟨natDigitsAux n n⟩

/-- Embedding of Python `str(i)` for an int: decimal digits with a leading
minus sign for negative values. -/
def pyIntStr (i : Int) : String :=
  if i < 0 then "-" ++ natStr i.natAbs else natStr i.toNat

/-! ## Service-Window Filter: time_limit (fjc_create.py lines 138-147) -/

/-- A row reaching time_limit, reduced to the fields the filter reads.  The
year fields embed the result of the pd.to_datetime / dt.year parsing that
opens time_limit: none stands for a NaT date whose year is NaN. -/
structure ServiceRecord where
  termination_year : Option Int
  start_year : Option Int
deriving DecidableEq, Repr

/-- A row after time_limit has computed its end_year column (NaN termination
years replaced by the END_YEAR constant, line 142). -/
structure TimedRecord where
  end_year : Int
  start_year : Option Int
deriving DecidableEq, Repr

/-- Lines 140-144: derive end_year from the termination date, replacing a
missing year by the configured END_YEAR constant. -/
def toTimed (endY : Int) (r : ServiceRecord) : TimedRecord :=
  { end_year := r.termination_year.getD endY, start_year := r.start_year }

/-- The two row filters of lines 145-146.  A pandas comparison against NaN is
False, so a row with a missing start_year is dropped by line 146. -/
def keepRecord (startY endY : Int) (r : TimedRecord) : Bool :=
  decide (startY - 2 < r.end_year) &&
    (match r.start_year with
     | some s => decide (s ≤ endY)
     | none => false)

/-- Embedding of time_limit: compute the year columns, then keep the rows
with end_year > START_YEAR - 2 and start_year <= END_YEAR.  The window
constants live in the external instructions module and are passed as
arguments. -/
def time_limit (startY endY : Int) (rows : List ServiceRecord) : List TimedRecord :=
  (rows.map (toTimed endY)).filter (keepRecord startY endY)

/-! ## Field Normalizer: encode_senate_vote (fjc_create.py lines 128-136) -/

/-- The senate-vote fields of one row, as read by encode_senate_vote. -/
structure VoteRow where
  senate_vote_type : String
  senate_vote : String
deriving DecidableEq, Repr

/-- Embedding of Python `s.split('/')` on the character list of s:
consecutive separators produce empty fields, and the result always has one
more field than there are slashes. -/
def splitSlash : List Char → List (List Char)
  | [] => [[]]
  | '/' :: rest => [] :: splitSlash rest
  | c :: rest =>
    match splitSlash rest with
    | g :: gs => (c :: g) :: gs
    | [] => [[c]]

/-- Does the string contain the two-character substring "//"?  This embeds
the Python test `'//' in row['senate_vote']`. -/
def hasDoubleSlash : List Char → Bool
  | '/' :: '/' :: _ => true
  | _ :: rest => hasDoubleSlash rest
  | [] => false

/-- Embedding of encode_senate_vote, producing the senate_percent value for
one row.  none embeds the exception paths of the Python code: ValueError from
unpacking a split with other than two fields or from int() on a non-integer
field, and ZeroDivisionError when yeas + nays = 0.  The ratio is computed in
Rat, mirroring Python's true division. -/
def encode_senate_vote (row : VoteRow) : Option Rat :=
  if row.senate_vote_type = "Voice" then some 1
  else if row.senate_vote.data.contains '/' && !hasDoubleSlash row.senate_vote.data then
    match splitSlash row.senate_vote.data with
    | [y, n] =>
      match pyInt? ⟨y⟩, pyInt? ⟨n⟩ with
      | some yi, some ni =>
        if yi + ni = 0 then none
        else some ((yi : Rat) / ((yi : Rat) + (ni : Rat)))
      | _, _ => none
    | _ => none
  else some 0

/-! ## Data-repair step: name_changes (fjc_create.py lines 149-163) -/

/-- The name fields of one canonical record, as read and written by
name_changes and name_perms. -/
structure CRow where
  first_name : String
  middle_name : String
  last_name : String
deriving DecidableEq, Repr

/-- A labeled DataFrame: the Int is the row's index label (the pandas index
at this pipeline stage), carried so that df.loc and df.append keep their
pandas meaning. -/
abbrev LabeledDf := List (Int × CRow)

/-- Embedding of `df.loc[label]` for a scalar label: the first row carrying
the label, none when the label is absent (pandas raises KeyError there). -/
def dfLoc (df : LabeledDf) (label : Int) : Option CRow :=
  (df.find? (fun p => p.1 = label)).map Prod.snd

/-- Embedding of name_changes.  Each correction looks up a hard-coded label;
when found, a copy of that row with one field replaced is appended to the
DataFrame (df.append adds a row; the original row is untouched because
df.loc returns a copy), and a missing label (KeyError) is silently skipped.
The second correction operates on the result of the first, as in the Python
code where df is reassigned. -/
def name_changes (df : LabeledDf) : LabeledDf :=
  let df1 :=
    match dfLoc df 1386716 with
    | some row => df ++ [(1386716, { row with last_name := "Randall" })]
    | none => df
  match dfLoc df1 1382851 with
  | some row => df1 ++ [(1382851, { row with first_name := "Sam" })]
  | none => df1

/-! ## Name Permutation Generator: name_perms (fjc_create.py lines 165-185) -/

/-- One canonical record after name_perms: the three name fields have been
punctuation-stripped in place, and the seven permutation columns added. -/
structure PermRow where
  first_name : String
  middle_name : String
  last_name : String
  name_perm1 : String
  name_perm2 : String
  name_perm3 : String
  name_perm4 : String
  name_perm5 : String
  name_perm6 : String
  name_perm7 : String
deriving DecidableEq, Repr

/-- Embedding of name_perms.  none embeds the IndexError raised by
`first[0]` when the stripped first name is empty; the middle initial is
guarded by the `if middle:` test in the source, and the last name is never
indexed.  The f-strings become string concatenations: an empty middle name
leaves its two surrounding spaces in place. -/
def name_perms (row : CRow) : Option PermRow :=
  let fn := stripPunct row.first_name
  let mn := stripPunct row.middle_name
  let ln := stripPunct row.last_name
  let first := pyUpper (pyStrip fn)
  match first.data with
  | [] => none
  | f0 :: _ =>
    let first_init : String := ⟨[Char.toUpper f0]⟩
    let middle := pyUpper (pyStrip mn)
    let middle_init : String :=
      match middle.data with
      | [] => ""
      | m0 :: _ => ⟨[Char.toUpper m0]⟩
    let last := pyUpper (pyStrip ln)
    some { first_name := fn, middle_name := mn, last_name := ln,
           name_perm1 := first ++ " " ++ middle ++ " " ++ last,
           name_perm2 := first ++ " " ++ middle_init ++ " " ++ last,
           name_perm3 := first ++ " " ++ last,
           name_perm4 := first_init ++ " " ++ middle ++ " " ++ last,
           name_perm5 := first_init ++ " " ++ middle_init ++ " " ++ last,
           name_perm6 := first_init ++ " " ++ last,
           name_perm7 := last }

/-! ## Names table builder: make_names_df (fjc_create.py lines 187-200) -/

/-- A munged record restricted to the columns make_names_df selects
(line 188-190). -/
structure MungedRow where
  start_year : Int
  end_year : Int
  court_num : Int
  circuit_num : Int
  judge_name : String
  name_perm1 : String
  name_perm2 : String
  name_perm3 : String
  name_perm4 : String
  name_perm5 : String
  name_perm6 : String
  name_perm7 : String
deriving DecidableEq, Repr

/-- One row of the persisted names table.  These are the columns surviving
wide_to_long and drop_duplicates(ignore_index = True); the (nindex, nperm)
reshape index is discarded, and to_csv(index = False) never writes it. -/
structure NameRow where
  start_year : Int
  end_year : Int
  court_num : Int
  circuit_num : Int
  judge_name : String
  year : Int
  name_perm : String
deriving DecidableEq, Repr

/-- The stub column name_perm<k> selected by suffix k, as pd.wide_to_long
matches the seven stub columns. -/
def permOfIndex (r : MungedRow) (k : Nat) : String :=
  match k with
  | 1 => r.name_perm1
  | 2 => r.name_perm2
  | 3 => r.name_perm3
  | 4 => r.name_perm4
  | 5 => r.name_perm5
  | 6 => r.name_perm6
  | 7 => r.name_perm7
  | _ => ""

/-- Embedding of the pd.wide_to_long reshape of lines 194-197, with the
year = 0 column of line 192 already set (line 191's sort_values discards its
result, a no-op): each record contributes one long row per stub suffix, and
the melt underlying wide_to_long emits the rows suffix-major. -/
def wideToLong (rows : List MungedRow) : List NameRow :=
  [1, 2, 3, 4, 5, 6, 7].flatMap (fun k =>
    rows.map (fun r =>
      { start_year := r.start_year, end_year := r.end_year,
        court_num := r.court_num, circuit_num := r.circuit_num,
        judge_name := r.judge_name, year := 0,
        name_perm := permOfIndex r k }))

/-- Embedding of drop_duplicates(keep = 'first'): keep the first occurrence
of each full row. -/
def dedupAux (seen : List NameRow) : List NameRow → List NameRow
  | [] => []
  | r :: rest =>
    if r ∈ seen then dedupAux seen rest
    else r :: dedupAux (r :: seen) rest

/-- Embedding of make_names_df: select columns, set year = 0, reshape wide to
long, drop rows with an empty permutation (line 198), and drop duplicate
rows. -/
def make_names_df (rows : List MungedRow) : List NameRow :=
  dedupAux [] ((wideToLong rows).filter (fun r => r.name_perm ≠ ""))

/-! ## Composite Key Index Builder (fjc_match.py lines 13-68) -/

/-- Embedding of the scalar convert_judge_name (fjc_match.py lines 13-19). -/
def convert_judge_name (year court : Int) (name : String) (dict_type : Nat) : String :=
  if dict_type = 1 then pyIntStr (court * 10000 + year) ++ name
  else if dict_type = 2 then pyIntStr year ++ name
  else name

/-- Embedding of convert_judge_name_series (fjc_match.py lines 21-27),
applied to one row of the series: the function has no else branch, so a
dict_type other than 1 or 2 produces None. -/
def convert_judge_name_series (year court : Int) (name : String)
    (dict_type : Nat) : Option String :=
  if dict_type = 1 then some (pyIntStr (court * 10000 + year) ++ name)
  else if dict_type = 2 then some (pyIntStr year ++ name)
  else none

/-- A names-table row extended with the four composite key columns
concat_name1..concat_name4 added by make_name_dicts (lines 43-62), after the
upper-casing of name_perm on line 42. -/
structure KeyedRow where
  start_year : Int
  end_year : Int
  court_num : Int
  circuit_num : Int
  judge_name : String
  year : Int
  name_perm : String
  concat_name1 : String
  concat_name2 : String
  concat_name3 : String
  concat_name4 : String
deriving DecidableEq, Repr

/-- Lines 42-62 of fjc_match.py for one row: upper-case name_perm, then add
the four composite keys.  The literal dict_type arguments are 1, 1, 2, 2, so
convert_judge_name_series always returns a value; getD "" only discharges
the Option. -/
def addConcatNames (r : NameRow) : KeyedRow :=
  let np := pyUpper r.name_perm
  { start_year := r.start_year, end_year := r.end_year,
    court_num := r.court_num, circuit_num := r.circuit_num,
    judge_name := r.judge_name, year := r.year, name_perm := np,
    concat_name1 := (convert_judge_name_series r.year r.court_num np 1).getD "",
    concat_name2 := (convert_judge_name_series r.year r.circuit_num np 1).getD "",
    concat_name3 := (convert_judge_name_series r.year r.court_num np 2).getD "",
    concat_name4 := (convert_judge_name_series r.year r.circuit_num np 2).getD "" }

/-- Insertion into a Python dict: an existing key has its value overwritten
in place, a new key is appended.  This is exactly the behavior of building a
dict from the rows of set_index(col).to_dict(): insertion order, unique
keys, last write wins. -/
def pyDictInsert (m : List (String × String)) (k v : String) :
    List (String × String) :=
  if m.any (fun p => p.1 = k) then
    m.map (fun p => if p.1 = k then (k, v) else p)
  else m ++ [(k, v)]

/-- Embedding of `df.set_index(key).to_dict()['judge_name']`: fold the rows
in order into a Python dict keyed by the given column. -/
def buildDict (rows : List KeyedRow) (key : KeyedRow → String) :
    List (String × String) :=
  rows.foldl (fun m r => pyDictInsert m (key r) r.judge_name) []

/-- The five key columns used by make_name_dicts, in build order (lines
63-67): court-and-year, circuit-and-year, year-only (court variant),
year-only (circuit variant), bare permutation. -/
def fiveKeyFuns : List (KeyedRow → String) :=
  [fun r => r.concat_name1, fun r => r.concat_name2, fun r => r.concat_name3,
   fun r => r.concat_name4, fun r => r.name_perm]

/-- Embedding of make_name_dicts (fjc_match.py lines 29-68) applied to the
rows of the persisted names table: add the composite key columns, then build
the five lookup dicts in order. -/
def make_name_dicts (df : List NameRow) : List (List (String × String)) :=
  let rows := df.map addConcatNames
  fiveKeyFuns.map (fun kf => buildDict rows kf)

/-! ## Basic facts about the string primitives -/

theorem data_append (s t : String) : (s ++ t).data = s.data ++ t.data := rfl

theorem string_ext (s t : String) (h : s.data = t.data) : s = t := by
  cases s; cases t; exact congrArg String.mk h

theorem string_data_nil (s : String) : s.data = [] ↔ s = "" := by
  constructor
  · intro h
    exact string_ext s "" h
  · intro h
    rw [h]

theorem toUpper_ne_space (c : Char) (h : c ≠ ' ') : c.toUpper ≠ ' ' := by
  show (if c.toNat ≥ 97 ∧ c.toNat ≤ 122 then Char.ofNat (c.toNat - 32) else c) ≠ ' '
  by_cases hc : c.toNat ≥ 97 ∧ c.toNat ≤ 122
  · rw [if_pos hc]
    intro he
    have hv : (c.toNat - 32).isValidChar := Or.inl (by omega)
    rw [Char.ofNat, dif_pos hv] at he
    have h32 := congrArg Char.toNat he
    have hn : (Char.ofNatAux (c.toNat - 32) hv).toNat = c.toNat - 32 := rfl
    rw [hn] at h32
    have hs : (' ' : Char).toNat = 32 := rfl
    omega
  · rw [if_neg hc]
    exact h

/-! ## C1: the service-window boundary -/

/-- C1 (counterexample): with window start 2000 the claim asserts that a
record with end_year = 1998 = window_start - 2 is retained by time_limit;
the code drops it (line 145 keeps only end_year > START_YEAR - 2, and
1998 > 1998 is false), so time_limit returns the empty table. -/
theorem fjc_c1_counterexample :
    time_limit 2000 2020 [⟨some 1998, some 1990⟩] = [] := by decide

/-- C1 (amended): the retained boundary is end_year = window_start - 1, one
year later than claimed: a record whose end_year equals window_start - 1
(and whose start_year is within the window end) is retained, and a record
whose end_year equals window_start - 2 is dropped, whatever its
start_year. -/
theorem fjc_c1_theorem (startY endY s : Int) (r1 r2 : ServiceRecord)
    (h1 : r1.termination_year = some (startY - 1))
    (hs1 : r1.start_year = some s) (hle : s ≤ endY)
    (h2 : r2.termination_year = some (startY - 2)) :
    time_limit startY endY [r1] = [{ end_year := startY - 1, start_year := some s }] ∧
    time_limit startY endY [r2] = [] := by
  constructor
  · have ht : toTimed endY r1 = { end_year := startY - 1, start_year := some s } := by
      simp [toTimed, h1, hs1]
    have hk : keepRecord startY endY { end_year := startY - 1, start_year := some s } = true := by
      simp only [keepRecord, Bool.and_eq_true, decide_eq_true_eq]
      exact ⟨by omega, hle⟩
    simp [time_limit, ht, hk]
  · have ht : (toTimed endY r2).end_year = startY - 2 := by
      simp [toTimed, h2]
    have hlt : ¬ (startY - 2 < (toTimed endY r2).end_year) := by
      rw [ht]
      omega
    have hk : keepRecord startY endY (toTimed endY r2) = false := by
      simp [keepRecord, hlt]
    simp [time_limit, hk]

/-- C1 (witness): the amended theorem at window 2000-2020, with a record
ending in 1999 (retained) and one ending in 1998 (dropped). -/
theorem fjc_c1_witness :
    time_limit 2000 2020 [⟨some 1999, some 1990⟩] =
      [{ end_year := 1999, start_year := some 1990 }] ∧
    time_limit 2000 2020 [⟨some 1998, some 1990⟩] = [] :=
  fjc_c1_theorem 2000 2020 1990 ⟨some 1999, some 1990⟩ ⟨some 1998, some 1990⟩
    (by decide) rfl (by decide) (by decide)

/-! ## C4: senate-vote percent parsing -/

/-- C4 (counterexample): the claim asserts that every vote string other than
"Voice" and the single-slash two-field form degrades silently to 0.0; but
"1/2/3" contains a slash and no double slash, so the code takes the split
branch, and unpacking the three fields into two names raises ValueError
(embedded as none), instead of producing 0.0. -/
theorem fjc_c4_counterexample :
    encode_senate_vote ⟨"Roll Call", "1/2/3"⟩ = none ∧
    encode_senate_vote ⟨"Roll Call", "1/2/3"⟩ ≠ some 0 := by
  constructor
  · decide
  · decide

/-- C4 (amended): Voice votes give 1.0; a vote string with a slash and no
double slash that splits into exactly two integer fields with nonzero sum
gives yeas/(yeas+nays), so "60/40" gives 3/5 = 0.6; a string with no slash
or with a double slash gives 0.0, so "3//1" gives 0.0; but a string with a
slash and no double slash that does not split into exactly two fields
raises an error (none) instead of degrading to 0.0. -/
theorem fjc_c4_theorem :
    (∀ row : VoteRow, row.senate_vote_type = "Voice" →
      encode_senate_vote row = some 1) ∧
    (∀ (row : VoteRow) (y n : List Char) (yi ni : Int),
      row.senate_vote_type ≠ "Voice" →
      row.senate_vote.data.contains '/' = true →
      hasDoubleSlash row.senate_vote.data = false →
      splitSlash row.senate_vote.data = [y, n] →
      pyInt? ⟨y⟩ = some yi → pyInt? ⟨n⟩ = some ni → yi + ni ≠ 0 →
      encode_senate_vote row = some ((yi : Rat) / ((yi : Rat) + (ni : Rat)))) ∧
    (∀ row : VoteRow, row.senate_vote_type ≠ "Voice" →
      (row.senate_vote.data.contains '/' = false ∨
        hasDoubleSlash row.senate_vote.data = true) →
      encode_senate_vote row = some 0) ∧
    (∀ row : VoteRow, row.senate_vote_type ≠ "Voice" →
      row.senate_vote.data.contains '/' = true →
      hasDoubleSlash row.senate_vote.data = false →
      (splitSlash row.senate_vote.data).length ≠ 2 →
      encode_senate_vote row = none) ∧
    encode_senate_vote ⟨"Roll Call", "60/40"⟩ = some (3 / 5) := by
  refine ⟨?_, ?_, ?_, ?_, ?_⟩
  · intro row hv
    simp [encode_senate_vote, hv]
  · intro row y n yi ni hv hsl hds hsp hy hn hnz
    simp only [encode_senate_vote, if_neg hv, hsl, hds, Bool.not_false, Bool.and_self,
      if_pos rfl, hsp]
    simp [hy, hn, hnz]
  · intro row hv hcase
    rcases hcase with h | h
    · have h' : ¬ ('/' ∈ row.senate_vote.data) := by simpa using h
      simp [encode_senate_vote, if_neg hv, h']
    · simp [encode_senate_vote, if_neg hv, h]
  · intro row hv hsl hds hlen
    simp only [encode_senate_vote, if_neg hv, hsl, hds, Bool.not_false, Bool.and_self,
      if_pos rfl]
    rcases hsp : splitSlash row.senate_vote.data with _ | ⟨y, rest⟩
    · rfl
    · rcases rest with _ | ⟨n, rest2⟩
      · rfl
      · rcases rest2 with _ | ⟨z, rest3⟩
        · rw [hsp] at hlen
          simp at hlen
        · rfl
  · have h1 : splitSlash ("60/40".data) = [['6', '0'], ['4', '0']] := by decide
    have h2 : pyInt? ⟨['6', '0']⟩ = some 60 := by decide
    have h3 : pyInt? ⟨['4', '0']⟩ = some 40 := by decide
    have h4 : hasDoubleSlash ['6', '0', '/', '4', '0'] = false := by decide
    simp [encode_senate_vote, h1, h2, h3, h4]
    norm_num

/-- C4 (witness): the amended theorem applied at the vote string "60/40"
with a Roll Call vote type: the split fields parse as 60 and 40 and the
percent is 60/(60+40). -/
theorem fjc_c4_witness :
    encode_senate_vote ⟨"Roll Call", "60/40"⟩ =
      some (((60 : Int) : Rat) / (((60 : Int) : Rat) + ((40 : Int) : Rat))) :=
  fjc_c4_theorem.2.1 ⟨"Roll Call", "60/40"⟩ ['6', '0'] ['4', '0'] 60 40
    (by decide) (by decide) (by decide) (by decide) (by decide) (by decide)
    (by decide)

/-! ## C7: the hard-coded name corrections -/

theorem find?_append {α : Type} (p : α → Bool) (l1 l2 : List α) :
    (l1 ++ l2).find? p = ((l1.find? p).orElse fun _ => l2.find? p) := by
  induction l1 with
  | nil => simp
  | cons a l ih =>
    cases h : p a
    · simpa [List.find?, h] using ih
    · simp [List.find?, h]

/-- dfLoc looks through an appended row with a different label. -/
theorem dfLoc_append_ne (df : LabeledDf) (a b : Int) (r : CRow) (h : a ≠ b) :
    dfLoc (df ++ [(a, r)]) b = dfLoc df b := by
  simp only [dfLoc, find?_append]
  rcases hf : df.find? (fun p => decide (p.1 = b)) with _ | p
  · simp [hf, List.find?, h]
  · simp [hf]

/-- C7 (counterexample): on a one-row DataFrame whose label is the first
correction target, the claim's in-place patch would leave one row with
last_name "Randall"; the code instead appends a corrected copy, keeping the
stale original row, so the output has two rows and its first row still
carries the old last_name. -/
theorem fjc_c7_counterexample :
    name_changes [(1386716, ⟨"X", "M", "Y"⟩)] =
      [(1386716, ⟨"X", "M", "Y"⟩), (1386716, ⟨"X", "M", "Randall"⟩)] ∧
    name_changes [(1386716, ⟨"X", "M", "Y"⟩)] ≠
      [(1386716, ⟨"X", "M", "Randall"⟩)] := by
  constructor
  · decide
  · decide

/-- C7 (amended): name_changes applies exactly the two hard-coded
corrections, but each correction, when its target label is present, appends
a corrected copy of the target row (last_name "Randall" for label 1386716,
first_name "Sam" for label 1382851) instead of patching the row in place;
when a target label is absent that correction is silently skipped, and with
both targets absent the DataFrame passes through unchanged, with no
error. -/
theorem fjc_c7_theorem (df : LabeledDf) :
    (dfLoc df 1386716 = none → dfLoc df 1382851 = none → name_changes df = df) ∧
    (∀ r1, dfLoc df 1386716 = some r1 → dfLoc df 1382851 = none →
      name_changes df = df ++ [(1386716, { r1 with last_name := "Randall" })]) ∧
    (∀ r2, dfLoc df 1386716 = none → dfLoc df 1382851 = some r2 →
      name_changes df = df ++ [(1382851, { r2 with first_name := "Sam" })]) ∧
    (∀ r1 r2, dfLoc df 1386716 = some r1 → dfLoc df 1382851 = some r2 →
      name_changes df = df ++ [(1386716, { r1 with last_name := "Randall" }),
                               (1382851, { r2 with first_name := "Sam" })]) := by
  refine ⟨?_, ?_, ?_, ?_⟩
  · intro h1 h2
    simp [name_changes, h1, h2]
  · intro r1 h1 h2
    have h2' : dfLoc (df ++ [(1386716, { r1 with last_name := "Randall" })]) 1382851 = none := by
      rw [dfLoc_append_ne df 1386716 1382851 _ (by decide)]
      exact h2
    simp [name_changes, h1, h2']
  · intro r2 h1 h2
    simp [name_changes, h1, h2]
  · intro r1 r2 h1 h2
    have h2' : dfLoc (df ++ [(1386716, { r1 with last_name := "Randall" })]) 1382851 = some r2 := by
      rw [dfLoc_append_ne df 1386716 1382851 _ (by decide)]
      exact h2
    simp [name_changes, h1, h2']

/-- C7 (witness): the amended theorem on a two-row DataFrame holding both
correction targets: both corrected copies are appended in order and the
original rows survive. -/
theorem fjc_c7_witness :
    name_changes [(1386716, ⟨"X", "M", "Y"⟩), (1382851, ⟨"U", "V", "W"⟩)] =
      [(1386716, ⟨"X", "M", "Y"⟩), (1382851, ⟨"U", "V", "W"⟩)] ++
        [(1386716, ⟨"X", "M", "Randall"⟩), (1382851, ⟨"Sam", "V", "W"⟩)] :=
  (fjc_c7_theorem [(1386716, ⟨"X", "M", "Y"⟩), (1382851, ⟨"U", "V", "W"⟩)]).2.2.2
    ⟨"X", "M", "Y"⟩ ⟨"U", "V", "W"⟩ (by decide) (by decide)

/-! ## C3: the empty-middle permutation -/

/-- C3 (counterexample): for the record (first "John", middle "", last
"Smith") the claim asserts name_perm1 has exactly one space between the
first and last components; the code produces "JOHN  SMITH", whose space
count is 2, because the f-string keeps both spaces around the empty middle
name. -/
theorem fjc_c3_counterexample :
    (name_perms ⟨"John", "", "Smith"⟩).map PermRow.name_perm1 =
      some "JOHN  SMITH" ∧
    ("JOHN  SMITH").data.count ' ' = 2 := by
  constructor
  · decide
  · decide

/-- C3 (amended): for every record whose middle_name is the empty string
(and whose stripped first name is non-empty, so name_perms does not raise),
name_perm1 is the upper-cased first name, two spaces, then the upper-cased
last name: the empty middle component leaves a double space, it does not
collapse. -/
theorem fjc_c3_theorem (row : CRow)
    (hm : row.middle_name = "")
    (hf : pyUpper (pyStrip (stripPunct row.first_name)) ≠ "") :
    (name_perms row).map PermRow.name_perm1 =
      some (pyUpper (pyStrip (stripPunct row.first_name)) ++ "  " ++
            pyUpper (pyStrip (stripPunct row.last_name))) := by
  have hd : (pyUpper (pyStrip (stripPunct row.first_name))).data ≠ [] := by
    intro h
    exact hf ((string_data_nil _).mp h)
  rcases hdata : (pyUpper (pyStrip (stripPunct row.first_name))).data with _ | ⟨f0, rest⟩
  · exact absurd hdata hd
  · have hmid : (pyUpper (pyStrip (stripPunct row.middle_name))).data = [] := by
      rw [hm]
      rfl
    simp only [name_perms, hdata, hmid, Option.map_some]
    refine congrArg some ?_
    apply string_ext
    have hsp : (" " : String).data = [' '] := rfl
    have hsp2 : ("  " : String).data = [' ', ' '] := rfl
    have hmid2 : (pyUpper (pyStrip (stripPunct row.middle_name))) = "" := by
      rw [hm]
      rfl
    simp [data_append, hmid2, hsp, hsp2, List.append_assoc]

/-- C3 (witness): the amended theorem at the record (John, "", Smith). -/
theorem fjc_c3_witness :
    (name_perms ⟨"John", "", "Smith"⟩).map PermRow.name_perm1 =
      some (pyUpper (pyStrip (stripPunct "John")) ++ "  " ++
            pyUpper (pyStrip (stripPunct "Smith"))) :=
  fjc_c3_theorem ⟨"John", "", "Smith"⟩ rfl (by decide)

/-! ## C2: distinctness of the seven permutations -/

/-- Space-free tokens followed by a space determine each other: the first
space in each side is the separator. -/
theorem space_tok_eq (X : List Char) :
    ∀ (Y R S : List Char), ' ' ∉ X → ' ' ∉ Y →
      X ++ ' ' :: R = Y ++ ' ' :: S → X = Y ∧ R = S := by
  induction X with
  | nil =>
    intro Y R S _ hY h
    cases Y with
    | nil => simpa using h
    | cons y ys =>
      simp only [List.nil_append, List.cons_append, List.cons.injEq] at h
      exact absurd (h.1 ▸ List.mem_cons_self y ys) (by
        rw [← h.1] at hY
        intro hm
        exact hY (h.1 ▸ hm))
  | cons x xs ih =>
    intro Y R S hX hY h
    cases Y with
    | nil =>
      simp only [List.cons_append, List.nil_append, List.cons.injEq] at h
      exact absurd (h.1 ▸ List.mem_cons_self x xs) (by
        intro hm
        exact hX (by simp [h.1]))
    | cons y ys =>
      simp only [List.cons_append, List.cons.injEq] at h
      have hx : x ∉ ({' '} : Set Char) := by
        intro hm
        exact hX (by simp at hm; simp [hm])
      obtain ⟨h1, h2⟩ := h
      have := ih ys R S (fun hm => hX (List.mem_cons_of_mem x hm))
        (fun hm => hY (List.mem_cons_of_mem y hm)) h2
      exact ⟨by rw [h1, this.1], this.2⟩

/-- A list of length at least two is not a singleton. -/
theorem ne_singleton_of_two_le (X : List Char) (c : Char) (h : 2 ≤ X.length) :
    X ≠ [c] := by
  intro he
  rw [he] at h
  simp at h

/-- Counting spaces across a space-free token and its separator. -/
theorem count_space_tok (X R : List Char) (hX : ' ' ∉ X) :
    (X ++ ' ' :: R).count ' ' = R.count ' ' + 1 := by
  have h0 : X.count ' ' = 0 := List.count_eq_zero.mpr hX
  simp [List.count_append, List.count_cons, h0]

/-- Lists with different space counts differ. -/
theorem ne_of_space_count (a b : List Char) (h : a.count ' ' ≠ b.count ' ') :
    a ≠ b := by
  intro he
  exact h (he ▸ rfl)

/-- Space-free tokens with equal heads and different tails give different
token-separated lists. -/
theorem tok_ne_of_ne (X Y R S : List Char) (hX : ' ' ∉ X) (hY : ' ' ∉ Y)
    (hne : X ≠ Y) : X ++ ' ' :: R ≠ Y ++ ' ' :: S := by
  intro h
  exact hne (space_tok_eq X Y R S hX hY h).1

/-- Equal space-free heads with different tails give different lists. -/
theorem tok_tail_ne (X R S : List Char) (hX : ' ' ∉ X) (hne : R ≠ S) :
    X ++ ' ' :: R ≠ X ++ ' ' :: S := by
  intro h
  exact hne (space_tok_eq X X R S hX hX h).2

/-- The seven permutation character lists are pairwise distinct when the
first and middle tokens have length at least two, all tokens are space-free,
and the two initials are not spaces. -/
theorem perm_lists_nodup (F M L : List Char) (fc mc : Char)
    (hF2 : 2 ≤ F.length) (hM2 : 2 ≤ M.length)
    (hFs : ' ' ∉ F) (hMs : ' ' ∉ M) (hLs : ' ' ∉ L)
    (hfc : fc ≠ ' ') (hmc : mc ≠ ' ') :
    [F ++ ' ' :: (M ++ ' ' :: L),
     F ++ ' ' :: (mc :: ' ' :: L),
     F ++ ' ' :: L,
     fc :: ' ' :: (M ++ ' ' :: L),
     fc :: ' ' :: mc :: ' ' :: L,
     fc :: ' ' :: L,
     L].Nodup := by
  have hfc' : ' ' ∉ [fc] := by simp [Ne.symm hfc]
  have hmc' : ' ' ∉ [mc] := by simp [Ne.symm hmc]
  have hFfc : F ≠ [fc] := ne_singleton_of_two_le F fc hF2
  have hMmc : M ≠ [mc] := ne_singleton_of_two_le M mc hM2
  have cL : L.count ' ' = 0 := List.count_eq_zero.mpr hLs
  have c1 : (F ++ ' ' :: (M ++ ' ' :: L)).count ' ' = 2 := by
    rw [count_space_tok F _ hFs, count_space_tok M _ hMs, cL]
  have c2 : (F ++ ' ' :: (mc :: ' ' :: L)).count ' ' = 2 := by
    rw [count_space_tok F _ hFs, show (mc :: ' ' :: L) = [mc] ++ ' ' :: L from rfl,
      count_space_tok [mc] _ hmc', cL]
  have c3 : (F ++ ' ' :: L).count ' ' = 1 := by
    rw [count_space_tok F _ hFs, cL]
  have c4 : (fc :: ' ' :: (M ++ ' ' :: L)).count ' ' = 2 := by
    rw [show (fc :: ' ' :: (M ++ ' ' :: L)) = [fc] ++ ' ' :: (M ++ ' ' :: L) from rfl,
      count_space_tok [fc] _ hfc', count_space_tok M _ hMs, cL]
  have c5 : (fc :: ' ' :: mc :: ' ' :: L).count ' ' = 2 := by
    rw [show (fc :: ' ' :: mc :: ' ' :: L) = [fc] ++ ' ' :: (mc :: ' ' :: L) from rfl,
      count_space_tok [fc] _ hfc', show (mc :: ' ' :: L) = [mc] ++ ' ' :: L from rfl,
      count_space_tok [mc] _ hmc', cL]
  have c6 : (fc :: ' ' :: L).count ' ' = 1 := by
    rw [show (fc :: ' ' :: L) = [fc] ++ ' ' :: L from rfl,
      count_space_tok [fc] _ hfc', cL]
  have h12 : F ++ ' ' :: (M ++ ' ' :: L) ≠ F ++ ' ' :: (mc :: ' ' :: L) := by
    apply tok_tail_ne F _ _ hFs
    rw [show (mc :: ' ' :: L) = [mc] ++ ' ' :: L from rfl]
    exact tok_ne_of_ne M [mc] L L hMs hmc' hMmc
  have h13 : F ++ ' ' :: (M ++ ' ' :: L) ≠ F ++ ' ' :: L :=
    ne_of_space_count _ _ (by rw [c1, c3]; decide)
  have h14 : F ++ ' ' :: (M ++ ' ' :: L) ≠ fc :: ' ' :: (M ++ ' ' :: L) := by
    rw [show (fc :: ' ' :: (M ++ ' ' :: L)) = [fc] ++ ' ' :: (M ++ ' ' :: L) from rfl]
    exact tok_ne_of_ne F [fc] _ _ hFs hfc' hFfc
  have h15 : F ++ ' ' :: (M ++ ' ' :: L) ≠ fc :: ' ' :: mc :: ' ' :: L := by
    rw [show (fc :: ' ' :: mc :: ' ' :: L) = [fc] ++ ' ' :: (mc :: ' ' :: L) from rfl]
    exact tok_ne_of_ne F [fc] _ _ hFs hfc' hFfc
  have h16 : F ++ ' ' :: (M ++ ' ' :: L) ≠ fc :: ' ' :: L :=
    ne_of_space_count _ _ (by rw [c1, c6]; decide)
  have h17 : F ++ ' ' :: (M ++ ' ' :: L) ≠ L :=
    ne_of_space_count _ _ (by rw [c1, cL]; decide)
  have h23 : F ++ ' ' :: (mc :: ' ' :: L) ≠ F ++ ' ' :: L :=
    ne_of_space_count _ _ (by rw [c2, c3]; decide)
  have h24 : F ++ ' ' :: (mc :: ' ' :: L) ≠ fc :: ' ' :: (M ++ ' ' :: L) := by
    rw [show (fc :: ' ' :: (M ++ ' ' :: L)) = [fc] ++ ' ' :: (M ++ ' ' :: L) from rfl]
    exact tok_ne_of_ne F [fc] _ _ hFs hfc' hFfc
  have h25 : F ++ ' ' :: (mc :: ' ' :: L) ≠ fc :: ' ' :: mc :: ' ' :: L := by
    rw [show (fc :: ' ' :: mc :: ' ' :: L) = [fc] ++ ' ' :: (mc :: ' ' :: L) from rfl]
    exact tok_ne_of_ne F [fc] _ _ hFs hfc' hFfc
  have h26 : F ++ ' ' :: (mc :: ' ' :: L) ≠ fc :: ' ' :: L :=
    ne_of_space_count _ _ (by rw [c2, c6]; decide)
  have h27 : F ++ ' ' :: (mc :: ' ' :: L) ≠ L :=
    ne_of_space_count _ _ (by rw [c2, cL]; decide)
  have h34 : F ++ ' ' :: L ≠ fc :: ' ' :: (M ++ ' ' :: L) :=
    ne_of_space_count _ _ (by rw [c3, c4]; decide)
  have h35 : F ++ ' ' :: L ≠ fc :: ' ' :: mc :: ' ' :: L :=
    ne_of_space_count _ _ (by rw [c3, c5]; decide)
  have h36 : F ++ ' ' :: L ≠ fc :: ' ' :: L := by
    rw [show (fc :: ' ' :: L) = [fc] ++ ' ' :: L from rfl]
    exact tok_ne_of_ne F [fc] _ _ hFs hfc' hFfc
  have h37 : F ++ ' ' :: L ≠ L :=
    ne_of_space_count _ _ (by rw [c3, cL]; decide)
  have h45 : fc :: ' ' :: (M ++ ' ' :: L) ≠ fc :: ' ' :: mc :: ' ' :: L := by
    rw [show (fc :: ' ' :: (M ++ ' ' :: L)) = [fc] ++ ' ' :: (M ++ ' ' :: L) from rfl,
      show (fc :: ' ' :: mc :: ' ' :: L) = [fc] ++ ' ' :: (mc :: ' ' :: L) from rfl]
    apply tok_tail_ne [fc] _ _ hfc'
    rw [show (mc :: ' ' :: L) = [mc] ++ ' ' :: L from rfl]
    exact tok_ne_of_ne M [mc] L L hMs hmc' hMmc
  have h46 : fc :: ' ' :: (M ++ ' ' :: L) ≠ fc :: ' ' :: L :=
    ne_of_space_count _ _ (by rw [c4, c6]; decide)
  have h47 : fc :: ' ' :: (M ++ ' ' :: L) ≠ L :=
    ne_of_space_count _ _ (by rw [c4, cL]; decide)
  have h56 : fc :: ' ' :: mc :: ' ' :: L ≠ fc :: ' ' :: L :=
    ne_of_space_count _ _ (by rw [c5, c6]; decide)
  have h57 : fc :: ' ' :: mc :: ' ' :: L ≠ L :=
    ne_of_space_count _ _ (by rw [c5, cL]; decide)
  have h67 : fc :: ' ' :: L ≠ L :=
    ne_of_space_count _ _ (by rw [c6, cL]; decide)
  simp only [List.nodup_cons, List.mem_cons, List.not_mem_nil, or_false,
    not_or, List.nodup_nil, and_true]
  exact ⟨⟨h12, h13, h14, h15, h16, h17⟩, ⟨h23, h24, h25, h26, h27⟩,
    ⟨h34, h35, h36, h37⟩, ⟨h45, h46, h47⟩, ⟨h56, h57⟩, h67, not_false⟩

/-- C2 (counterexample): the record (first "A", middle "", last "B") has
non-empty first and last names after punctuation stripping, yet the seven
permutation strings are not pairwise distinct: the empty middle name and the
one-character first name collapse them to only three distinct strings. -/
theorem fjc_c2_counterexample :
    (name_perms ⟨"A", "", "B"⟩).map (fun p =>
      [p.name_perm1, p.name_perm2, p.name_perm3, p.name_perm4, p.name_perm5,
       p.name_perm6, p.name_perm7]) =
      some ["A  B", "A  B", "A B", "A  B", "A  B", "A B", "B"] ∧
    ¬ (["A  B", "A  B", "A B", "A  B", "A  B", "A B", "B"] : List String).Nodup := by
  constructor
  · decide
  · decide

/-- C2 (amended): whenever name_perms produces output (the stripped first
name is non-empty; otherwise the code raises IndexError), name_perm7 equals
the upper-cased, whitespace-trimmed, punctuation-stripped last name alone -
for every such record, empty middle names included; the seven permutation
strings are moreover pairwise distinct under the conditions the
counterexample forces: the processed first and middle names have at least
two characters and no component contains a space. -/
theorem fjc_c2_theorem (row : CRow)
    (hf : pyUpper (pyStrip (stripPunct row.first_name)) ≠ "") :
    ∃ p, name_perms row = some p ∧
      p.name_perm7 = pyUpper (pyStrip (stripPunct row.last_name)) ∧
      (2 ≤ (pyUpper (pyStrip (stripPunct row.first_name))).length →
       2 ≤ (pyUpper (pyStrip (stripPunct row.middle_name))).length →
       ' ' ∉ (pyUpper (pyStrip (stripPunct row.first_name))).data →
       ' ' ∉ (pyUpper (pyStrip (stripPunct row.middle_name))).data →
       ' ' ∉ (pyUpper (pyStrip (stripPunct row.last_name))).data →
       [p.name_perm1, p.name_perm2, p.name_perm3, p.name_perm4, p.name_perm5,
        p.name_perm6, p.name_perm7].Nodup) := by
  rcases hFd : (pyUpper (pyStrip (stripPunct row.first_name))).data with _ | ⟨f0, ftail⟩
  · exact absurd ((string_data_nil _).mp hFd) hf
  rcases hMd : (pyUpper (pyStrip (stripPunct row.middle_name))).data with _ | ⟨m0, mtail⟩
  · have h7 : (name_perms row).map PermRow.name_perm7 =
        some (pyUpper (pyStrip (stripPunct row.last_name))) := by
      simp only [name_perms, hFd, hMd]
      rfl
    rcases hrun : name_perms row with _ | p
    · rw [hrun] at h7
      cases h7
    · rw [hrun] at h7
      refine ⟨p, rfl, by simpa using h7, ?_⟩
      intro _ hm2 _ _ _
      exfalso
      have hlen : (pyUpper (pyStrip (stripPunct row.middle_name))).length = 0 := by
        simp [String.length, hMd]
      omega
  have hrun : name_perms row = some
      { first_name := stripPunct row.first_name,
        middle_name := stripPunct row.middle_name,
        last_name := stripPunct row.last_name,
        name_perm1 := pyUpper (pyStrip (stripPunct row.first_name)) ++ " " ++
          pyUpper (pyStrip (stripPunct row.middle_name)) ++ " " ++
          pyUpper (pyStrip (stripPunct row.last_name)),
        name_perm2 := pyUpper (pyStrip (stripPunct row.first_name)) ++ " " ++
          (⟨[Char.toUpper m0]⟩ : String) ++ " " ++
          pyUpper (pyStrip (stripPunct row.last_name)),
        name_perm3 := pyUpper (pyStrip (stripPunct row.first_name)) ++ " " ++
          pyUpper (pyStrip (stripPunct row.last_name)),
        name_perm4 := (⟨[Char.toUpper f0]⟩ : String) ++ " " ++
          pyUpper (pyStrip (stripPunct row.middle_name)) ++ " " ++
          pyUpper (pyStrip (stripPunct row.last_name)),
        name_perm5 := (⟨[Char.toUpper f0]⟩ : String) ++ " " ++
          (⟨[Char.toUpper m0]⟩ : String) ++ " " ++
          pyUpper (pyStrip (stripPunct row.last_name)),
        name_perm6 := (⟨[Char.toUpper f0]⟩ : String) ++ " " ++
          pyUpper (pyStrip (stripPunct row.last_name)),
        name_perm7 := pyUpper (pyStrip (stripPunct row.last_name)) } := by
    simp only [name_perms, hFd, hMd]
  refine ⟨_, hrun, rfl, ?_⟩
  intro hf2 hm2 hfs hms hls
  have hf0 : f0 ≠ ' ' := by
    intro h
    subst h
    simp at hfs
  have hm0 : m0 ≠ ' ' := by
    intro h
    subst h
    simp at hms
  have hfs' : ' ' ∉ (pyUpper (pyStrip (stripPunct row.first_name))).data := by
    rw [hFd]
    exact hfs
  have hms' : ' ' ∉ (pyUpper (pyStrip (stripPunct row.middle_name))).data := by
    rw [hMd]
    exact hms
  have hF2 : 2 ≤ (pyUpper (pyStrip (stripPunct row.first_name))).data.length := hf2
  have hM2 : 2 ≤ (pyUpper (pyStrip (stripPunct row.middle_name))).data.length := hm2
  have hnd := perm_lists_nodup
    (pyUpper (pyStrip (stripPunct row.first_name))).data
    (pyUpper (pyStrip (stripPunct row.middle_name))).data
    (pyUpper (pyStrip (stripPunct row.last_name))).data
    (Char.toUpper f0) (Char.toUpper m0)
    hF2 hM2 hfs' hms' hls
    (toUpper_ne_space f0 hf0) (toUpper_ne_space m0 hm0)
  apply List.Nodup.of_map String.data
  have hspace : (" " : String).data = [' '] := rfl
  have hmap : List.map String.data
      [pyUpper (pyStrip (stripPunct row.first_name)) ++ " " ++
         pyUpper (pyStrip (stripPunct row.middle_name)) ++ " " ++
         pyUpper (pyStrip (stripPunct row.last_name)),
       pyUpper (pyStrip (stripPunct row.first_name)) ++ " " ++
         (⟨[Char.toUpper m0]⟩ : String) ++ " " ++
         pyUpper (pyStrip (stripPunct row.last_name)),
       pyUpper (pyStrip (stripPunct row.first_name)) ++ " " ++
         pyUpper (pyStrip (stripPunct row.last_name)),
       (⟨[Char.toUpper f0]⟩ : String) ++ " " ++
         pyUpper (pyStrip (stripPunct row.middle_name)) ++ " " ++
         pyUpper (pyStrip (stripPunct row.last_name)),
       (⟨[Char.toUpper f0]⟩ : String) ++ " " ++
         (⟨[Char.toUpper m0]⟩ : String) ++ " " ++
         pyUpper (pyStrip (stripPunct row.last_name)),
       (⟨[Char.toUpper f0]⟩ : String) ++ " " ++
         pyUpper (pyStrip (stripPunct row.last_name)),
       pyUpper (pyStrip (stripPunct row.last_name))] =
      [(pyUpper (pyStrip (stripPunct row.first_name))).data ++ ' ' ::
         ((pyUpper (pyStrip (stripPunct row.middle_name))).data ++ ' ' ::
          (pyUpper (pyStrip (stripPunct row.last_name))).data),
       (pyUpper (pyStrip (stripPunct row.first_name))).data ++ ' ' ::
         (Char.toUpper m0 :: ' ' ::
          (pyUpper (pyStrip (stripPunct row.last_name))).data),
       (pyUpper (pyStrip (stripPunct row.first_name))).data ++ ' ' ::
         (pyUpper (pyStrip (stripPunct row.last_name))).data,
       Char.toUpper f0 :: ' ' ::
         ((pyUpper (pyStrip (stripPunct row.middle_name))).data ++ ' ' ::
          (pyUpper (pyStrip (stripPunct row.last_name))).data),
       Char.toUpper f0 :: ' ' :: Char.toUpper m0 :: ' ' ::
         (pyUpper (pyStrip (stripPunct row.last_name))).data,
       Char.toUpper f0 :: ' ' ::
         (pyUpper (pyStrip (stripPunct row.last_name))).data,
       (pyUpper (pyStrip (stripPunct row.last_name))).data] := by
    simp [data_append, hspace, List.append_assoc]
  rw [hmap]
  exact hnd

/-- C2 (witness): the amended theorem at the record (John, Quincy, Smith):
name_perms produces output whose seventh permutation is the processed last
name, and the distinctness conditions hold, so the seven permutations are
pairwise distinct. -/
theorem fjc_c2_witness :
    ∃ p, name_perms ⟨"John", "Quincy", "Smith"⟩ = some p ∧
      p.name_perm7 = pyUpper (pyStrip (stripPunct "Smith")) ∧
      (2 ≤ (pyUpper (pyStrip (stripPunct "John"))).length →
       2 ≤ (pyUpper (pyStrip (stripPunct "Quincy"))).length →
       ' ' ∉ (pyUpper (pyStrip (stripPunct "John"))).data →
       ' ' ∉ (pyUpper (pyStrip (stripPunct "Quincy"))).data →
       ' ' ∉ (pyUpper (pyStrip (stripPunct "Smith"))).data →
       [p.name_perm1, p.name_perm2, p.name_perm3, p.name_perm4, p.name_perm5,
        p.name_perm6, p.name_perm7].Nodup) :=
  fjc_c2_theorem ⟨"John", "Quincy", "Smith"⟩ (by decide)

/-! ## Python dict lemmas -/

theorem lookup_cons_hit (p : String × String) (es : List (String × String))
    (k : String) (h : k = p.1) : List.lookup k (p :: es) = some p.2 := by
  rcases p with ⟨k1, v1⟩
  rw [List.lookup_cons]
  have hb : (k == k1) = true := by simpa using h
  rw [hb]

theorem lookup_cons_miss (p : String × String) (es : List (String × String))
    (k : String) (h : k ≠ p.1) : List.lookup k (p :: es) = List.lookup k es := by
  rcases p with ⟨k1, v1⟩
  rw [List.lookup_cons]
  have hb : (k == k1) = false := by simpa using h
  rw [hb]

theorem lookup_map_overwrite_ne (m : List (String × String)) (k k' v : String)
    (hk : k ≠ k') :
    List.lookup k (m.map (fun p => if p.1 = k' then (k', v) else p)) =
      List.lookup k m := by
  induction m with
  | nil => rfl
  | cons p rest ih =>
    rw [List.map_cons]
    by_cases hp : p.1 = k'
    · rw [if_pos hp]
      rw [lookup_cons_miss (k', v) _ k hk]
      rw [lookup_cons_miss p rest k (by rw [hp]; exact hk)]
      exact ih
    · rw [if_neg hp]
      by_cases hkp : k = p.1
      · rw [lookup_cons_hit p _ k hkp, lookup_cons_hit p rest k hkp]
      · rw [lookup_cons_miss p _ k hkp, lookup_cons_miss p rest k hkp]
        exact ih

theorem lookup_map_overwrite_eq (m : List (String × String)) (k' v : String)
    (hmem : m.any (fun p => p.1 = k') = true) :
    List.lookup k' (m.map (fun p => if p.1 = k' then (k', v) else p)) =
      some v := by
  induction m with
  | nil => simp at hmem
  | cons p rest ih =>
    rw [List.map_cons]
    by_cases hp : p.1 = k'
    · rw [if_pos hp]
      rw [lookup_cons_hit (k', v) _ k' rfl]
    · rw [if_neg hp]
      rw [lookup_cons_miss p _ k' (fun he => hp he.symm)]
      apply ih
      have hd : decide (p.1 = k') = false := by simp [hp]
      simpa [hd] using hmem

theorem lookup_eq_none_of_not_any (m : List (String × String)) (k : String)
    (h : m.any (fun p => p.1 = k) = false) : List.lookup k m = none := by
  induction m with
  | nil => rfl
  | cons p rest ih =>
    simp only [List.any_cons, Bool.or_eq_false_iff, decide_eq_false_iff_not] at h
    rw [lookup_cons_miss p rest k (fun he => h.1 he.symm)]
    apply ih
    simp [h.2]

theorem lookup_append_pair (m : List (String × String)) (l2 : List (String × String))
    (k : String) :
    List.lookup k (m ++ l2) = ((List.lookup k m).orElse fun _ => List.lookup k l2) := by
  induction m with
  | nil => simp
  | cons p rest ih =>
    by_cases hk : k = p.1
    · rw [List.cons_append, lookup_cons_hit p _ k hk, lookup_cons_hit p rest k hk]
      rfl
    · rw [List.cons_append, lookup_cons_miss p _ k hk, lookup_cons_miss p rest k hk]
      exact ih

/-- Looking up in a Python dict after one insertion: the inserted key maps to
the new value, all other keys are untouched. -/
theorem lookup_pyDictInsert (m : List (String × String)) (k k' v : String) :
    List.lookup k (pyDictInsert m k' v) =
      if k = k' then some v else List.lookup k m := by
  by_cases hmem : m.any (fun p => p.1 = k') = true
  · rw [pyDictInsert, if_pos hmem]
    by_cases hk : k = k'
    · subst hk
      rw [if_pos rfl]
      exact lookup_map_overwrite_eq m k v hmem
    · rw [if_neg hk]
      exact lookup_map_overwrite_ne m k k' v hk
  · rw [pyDictInsert, if_neg hmem, lookup_append_pair]
    by_cases hk : k = k'
    · subst hk
      rw [if_pos rfl]
      rw [lookup_eq_none_of_not_any m k (by rwa [Bool.not_eq_true] at hmem)]
      rw [lookup_cons_hit (k, v) [] k rfl]
      rfl
    · rw [if_neg hk]
      rw [lookup_cons_miss (k', v) [] k hk, List.lookup_nil]
      rcases List.lookup k m with _ | w
      · rfl
      · rfl

theorem buildDict_append (rows : List KeyedRow) (r : KeyedRow)
    (kf : KeyedRow → String) :
    buildDict (rows ++ [r]) kf =
      pyDictInsert (buildDict rows kf) (kf r) r.judge_name := by
  simp [buildDict, List.foldl_append]

/-- The dict built from a row list answers every lookup with the judge_name
of the last-inserted row carrying that key: last write wins. -/
theorem lookup_buildDict (rows : List KeyedRow) (kf : KeyedRow → String)
    (k : String) :
    List.lookup k (buildDict rows kf) =
      (rows.reverse.find? (fun r => kf r == k)).map (fun r => r.judge_name) := by
  induction rows using List.reverseRecOn with
  | nil => simp [buildDict]
  | append_singleton rows r ih =>
    rw [buildDict_append, lookup_pyDictInsert, List.reverse_append]
    by_cases hk : k = kf r
    · rw [if_pos hk]
      have hb : (kf r == k) = true := by simpa using hk.symm
      simp [List.find?, hb]
    · rw [if_neg hk]
      have hb : (kf r == k) = false := by
        simp
        exact fun he => hk he.symm
      simp only [List.reverse_cons, List.reverse_nil, List.nil_append,
        List.singleton_append, List.find?, hb]
      exact ih

theorem keys_nodup_pyDictInsert (m : List (String × String)) (k v : String)
    (h : (m.map Prod.fst).Nodup) :
    ((pyDictInsert m k v).map Prod.fst).Nodup := by
  by_cases hmem : m.any (fun p => p.1 = k) = true
  · rw [pyDictInsert, if_pos hmem]
    have hkeys : (m.map (fun p => if p.1 = k then (k, v) else p)).map Prod.fst =
        m.map Prod.fst := by
      rw [List.map_map]
      apply List.map_congr_left
      intro p _
      by_cases hp : p.1 = k
      · simp [hp]
      · simp [hp]
    rw [hkeys]
    exact h
  · rw [pyDictInsert, if_neg hmem]
    rw [List.map_append]
    rw [List.nodup_append]
    refine ⟨h, by simp, ?_⟩
    intro a ha hb
    simp only [List.map_cons, List.map_nil, List.mem_singleton] at hb
    subst hb
    rw [Bool.not_eq_true] at hmem
    simp only [List.mem_map] at ha
    obtain ⟨p, hp, hpk⟩ := ha
    have : m.any (fun p => p.1 = a) = true := by
      refine List.any_eq_true.mpr ⟨p, hp, ?_⟩
      simp [hpk]
    rw [this] at hmem
    cases hmem

/-- Keys are unique within every built dict. -/
theorem keys_nodup_buildDict (rows : List KeyedRow) (kf : KeyedRow → String) :
    ((buildDict rows kf).map Prod.fst).Nodup := by
  induction rows using List.reverseRecOn with
  | nil => simp [buildDict]
  | append_singleton rows r ih =>
    rw [buildDict_append]
    exact keys_nodup_pyDictInsert _ _ _ ih

theorem buildDict_congr (rows : List KeyedRow) (kf kg : KeyedRow → String)
    (h : ∀ r ∈ rows, kf r = kg r) : buildDict rows kf = buildDict rows kg := by
  induction rows using List.reverseRecOn with
  | nil => rfl
  | append_singleton rows r ih =>
    rw [buildDict_append, buildDict_append,
      ih (fun x hx => h x (List.mem_append_left _ hx)), h r (by simp)]

/-! ## Decimal rendering facts -/

theorem natDigitsAux_zero (fuel : Nat) : natDigitsAux fuel 0 = [] := by
  cases fuel <;> simp [natDigitsAux]

/-- The leading digit of a nonzero decimal rendering is not '0'. -/
theorem natDigitsAux_head (fuel : Nat) : ∀ n : Nat, n ≠ 0 → n ≤ fuel →
    ∃ c cs, natDigitsAux fuel n = c :: cs ∧ c ≠ '0' := by
  induction fuel with
  | zero =>
    intro n hn hle
    omega
  | succ f ih =>
    intro n hn hle
    by_cases h10 : n / 10 = 0
    · refine ⟨Char.ofNat (48 + n % 10), [], ?_, ?_⟩
      · simp [natDigitsAux, hn, h10, natDigitsAux_zero]
      · intro he
        have hv : (48 + n % 10).isValidChar := Or.inl (by omega)
        rw [Char.ofNat, dif_pos hv] at he
        have h48 := congrArg Char.toNat he
        have hc : (Char.ofNatAux (48 + n % 10) hv).toNat = 48 + n % 10 := rfl
        have hz : ('0' : Char).toNat = 48 := rfl
        omega
    · obtain ⟨c, cs, heq, hc⟩ := ih (n / 10) h10 (by omega)
      refine ⟨c, cs ++ [Char.ofNat (48 + n % 10)], ?_, hc⟩
      rw [show natDigitsAux (f + 1) n =
        natDigitsAux f (n / 10) ++ [Char.ofNat (48 + n % 10)] from by
          simp [natDigitsAux, hn]]
      rw [heq]
      rfl

/-- natStr never renders a nonzero number with a leading zero. -/
theorem natStr_no_leading_zero (n : Nat) :
    (natStr n).data.head? ≠ some '0' ∨ n = 0 := by
  by_cases hn : n = 0
  · exact Or.inr hn
  · left
    obtain ⟨c, cs, heq, hc⟩ := natDigitsAux_head n n hn (Nat.le_refl n)
    rw [natStr, if_neg hn]
    show (natDigitsAux n n).head? ≠ some '0'
    rw [heq]
    simp [hc]

/-! ## C5: composite key construction and the five tables -/

/-- C5 (confirmed): make_name_dicts builds exactly five lookup tables, in
the order court-and-year, circuit-and-year, year-only (court variant),
year-only (circuit variant), bare name; each composite key renders its
numeric component (court_num*10000+year, circuit_num*10000+year, or the bare
year) as a plain decimal integer and appends the permutation text directly
with no separator; and the decimal rendering of a nonzero number never
carries a leading zero. -/
theorem fjc_c5_theorem (df : List NameRow) (n : Nat) :
    make_name_dicts df =
      [buildDict (df.map addConcatNames)
         (fun r => pyIntStr (r.court_num * 10000 + r.year) ++ r.name_perm),
       buildDict (df.map addConcatNames)
         (fun r => pyIntStr (r.circuit_num * 10000 + r.year) ++ r.name_perm),
       buildDict (df.map addConcatNames)
         (fun r => pyIntStr r.year ++ r.name_perm),
       buildDict (df.map addConcatNames)
         (fun r => pyIntStr r.year ++ r.name_perm),
       buildDict (df.map addConcatNames) (fun r => r.name_perm)] ∧
    ((natStr n).data.head? ≠ some '0' ∨ n = 0) := by
  constructor
  · simp only [make_name_dicts, fiveKeyFuns, List.map_cons, List.map_nil]
    have e1 : buildDict (df.map addConcatNames) (fun r => r.concat_name1) =
        buildDict (df.map addConcatNames)
          (fun r => pyIntStr (r.court_num * 10000 + r.year) ++ r.name_perm) := by
      apply buildDict_congr
      intro r hr
      simp only [List.mem_map] at hr
      obtain ⟨r0, _, rfl⟩ := hr
      simp [addConcatNames, convert_judge_name_series]
    have e2 : buildDict (df.map addConcatNames) (fun r => r.concat_name2) =
        buildDict (df.map addConcatNames)
          (fun r => pyIntStr (r.circuit_num * 10000 + r.year) ++ r.name_perm) := by
      apply buildDict_congr
      intro r hr
      simp only [List.mem_map] at hr
      obtain ⟨r0, _, rfl⟩ := hr
      simp [addConcatNames, convert_judge_name_series]
    have e3 : buildDict (df.map addConcatNames) (fun r => r.concat_name3) =
        buildDict (df.map addConcatNames)
          (fun r => pyIntStr r.year ++ r.name_perm) := by
      apply buildDict_congr
      intro r hr
      simp only [List.mem_map] at hr
      obtain ⟨r0, _, rfl⟩ := hr
      simp [addConcatNames, convert_judge_name_series]
    have e4 : buildDict (df.map addConcatNames) (fun r => r.concat_name4) =
        buildDict (df.map addConcatNames)
          (fun r => pyIntStr r.year ++ r.name_perm) := by
      apply buildDict_congr
      intro r hr
      simp only [List.mem_map] at hr
      obtain ⟨r0, _, rfl⟩ := hr
      simp [addConcatNames, convert_judge_name_series]
    rw [e1, e2, e3, e4]
  · exact natStr_no_leading_zero n

/-! ## C6: key uniqueness and last-write-wins -/

/-- C6 (confirmed): every table built by make_name_dicts has pairwise
distinct keys, and is the Python dict over one of the five key columns: a
lookup returns the judge_name of the last-inserted row carrying the key, so
when two rows collide on a key, the later row's judge_name is the value
retrievable afterward. -/
theorem fjc_c6_theorem (df : List NameRow) (d : List (String × String))
    (hd : d ∈ make_name_dicts df) :
    (d.map Prod.fst).Nodup ∧
    ∃ kf, kf ∈ fiveKeyFuns ∧ d = buildDict (df.map addConcatNames) kf ∧
      ∀ k : String, List.lookup k d =
        (((df.map addConcatNames).reverse.find? (fun r => kf r == k)).map
          (fun r => r.judge_name)) := by
  simp only [make_name_dicts, List.mem_map] at hd
  obtain ⟨kf, hkf, hEq⟩ := hd
  subst hEq
  exact ⟨keys_nodup_buildDict _ _, kf, hkf, rfl, fun k => lookup_buildDict _ _ _⟩

/-- C6 (witness): for a names table whose two rows collide on the bare
permutation "AB", the bare-name table of make_name_dicts is the one-entry
dict carrying the later row's judge_name "Second". -/
theorem fjc_c6_witness :
    (([("AB", "Second")] : List (String × String)).map Prod.fst).Nodup ∧
    ∃ kf, kf ∈ fiveKeyFuns ∧
      [("AB", "Second")] =
        buildDict (([⟨1990, 2000, 5, 2, "First", 0, "ab"⟩,
          ⟨1991, 2001, 6, 3, "Second", 0, "AB"⟩] : List NameRow).map addConcatNames) kf ∧
      ∀ k : String, List.lookup k [("AB", "Second")] =
        (((([⟨1990, 2000, 5, 2, "First", 0, "ab"⟩,
          ⟨1991, 2001, 6, 3, "Second", 0, "AB"⟩] : List NameRow).map
            addConcatNames).reverse.find? (fun r => kf r == k)).map
          (fun r => r.judge_name)) :=
  fjc_c6_theorem
    [⟨1990, 2000, 5, 2, "First", 0, "ab"⟩, ⟨1991, 2001, 6, 3, "Second", 0, "AB"⟩]
    [("AB", "Second")] (by decide)

/-! ## C8: determinism of the index build -/

/-- C8 (confirmed): the pipeline is a pure function of its input: two runs
of make_names_df followed by make_name_dicts over equal input tables produce
equal names tables and equal lookup dictionaries.  The embedding carries no
hidden state, matching the Python code, whose only inputs are the data
frames and the static instructions constants. -/
theorem fjc_c8_theorem (df1 df2 : List MungedRow) (h : df1 = df2) :
    make_names_df df1 = make_names_df df2 ∧
    make_name_dicts (make_names_df df1) = make_name_dicts (make_names_df df2) := by
  subst h
  exact ⟨rfl, rfl⟩

/-- C8 (witness): two runs over the same one-record table coincide. -/
theorem fjc_c8_witness :
    make_names_df [⟨1990, 2000, 5, 2, "J", "A", "", "", "", "", "", ""⟩] =
      make_names_df [⟨1990, 2000, 5, 2, "J", "A", "", "", "", "", "", ""⟩] ∧
    make_name_dicts (make_names_df [⟨1990, 2000, 5, 2, "J", "A", "", "", "", "", "", ""⟩]) =
      make_name_dicts (make_names_df [⟨1990, 2000, 5, 2, "J", "A", "", "", "", "", "", ""⟩]) :=
  fjc_c8_theorem [⟨1990, 2000, 5, 2, "J", "A", "", "", "", "", "", ""⟩]
    [⟨1990, 2000, 5, 2, "J", "A", "", "", "", "", "", ""⟩] rfl

/-! ## C9: the two year-only tables coincide -/

/-- C9 (confirmed): convert_judge_name_series with dict_type 2 ignores its
court argument, so concat_name3 and concat_name4 agree on every row and the
third and fourth dictionaries built by make_name_dicts are equal. -/
theorem fjc_c9_theorem :
    (∀ (year c1 c2 : Int) (name : String),
      convert_judge_name_series year c1 name 2 =
        convert_judge_name_series year c2 name 2) ∧
    (∀ r : NameRow,
      (addConcatNames r).concat_name3 = (addConcatNames r).concat_name4) ∧
    (∀ df : List NameRow, (make_name_dicts df)[2]? = (make_name_dicts df)[3]?) := by
  refine ⟨?_, ?_, ?_⟩
  · intro year c1 c2 name
    simp [convert_judge_name_series]
  · intro r
    simp [addConcatNames, convert_judge_name_series]
  · intro df
    simp only [make_name_dicts, fiveKeyFuns, List.map_cons, List.map_nil,
      List.getElem?_cons_succ, List.getElem?_cons_zero]
    refine congrArg some ?_
    apply buildDict_congr
    intro r hr
    simp only [List.mem_map] at hr
    obtain ⟨r0, _, rfl⟩ := hr
    simp [addConcatNames, convert_judge_name_series]

/-! ## C10: the year column is constantly zero -/

theorem mem_dedupAux (l : List NameRow) :
    ∀ (seen : List NameRow) (x : NameRow), x ∈ dedupAux seen l → x ∈ l := by
  induction l with
  | nil =>
    intro seen x h
    simp [dedupAux] at h
  | cons r rest ih =>
    intro seen x h
    rw [dedupAux] at h
    by_cases hs : r ∈ seen
    · rw [if_pos hs] at h
      exact List.mem_cons_of_mem r (ih seen x h)
    · rw [if_neg hs] at h
      rcases List.mem_cons.mp h with he | hm
      · exact he ▸ List.mem_cons_self r rest
      · exact List.mem_cons_of_mem r (ih (r :: seen) x hm)

/-- C10 (confirmed): every row of the names table built by make_names_df has
year = 0 (the reshape never expands records into per-year rows), so every
composite key later built from a names-table row uses 0 as its year
component: the court-and-year key is court_num*10000 followed by the name,
and the year-only keys are "0" followed by the name. -/
theorem fjc_c10_theorem (rows : List MungedRow) (r : NameRow)
    (hr : r ∈ make_names_df rows) :
    r.year = 0 ∧
    (addConcatNames r).concat_name1 =
      pyIntStr (r.court_num * 10000) ++ pyUpper r.name_perm ∧
    (addConcatNames r).concat_name2 =
      pyIntStr (r.circuit_num * 10000) ++ pyUpper r.name_perm ∧
    (addConcatNames r).concat_name3 = "0" ++ pyUpper r.name_perm ∧
    (addConcatNames r).concat_name4 = "0" ++ pyUpper r.name_perm := by
  have hy : r.year = 0 := by
    rw [make_names_df] at hr
    have h1 := mem_dedupAux _ [] r hr
    have h2 := (List.mem_filter.mp h1).1
    simp only [wideToLong, List.mem_flatMap, List.mem_map] at h2
    obtain ⟨k, _, r0, _, hEq⟩ := h2
    rw [← hEq]
  have hzero : pyIntStr 0 = "0" := rfl
  refine ⟨hy, ?_, ?_, ?_, ?_⟩ <;>
    simp [addConcatNames, convert_judge_name_series, hy, hzero]

/-- C10 (witness): the theorem at a one-record table whose only surviving
permutation row is (court 5, circuit 2, year 0, name "A"). -/
theorem fjc_c10_witness :
    (⟨1990, 2000, 5, 2, "J", 0, "A"⟩ : NameRow).year = 0 ∧
    (addConcatNames ⟨1990, 2000, 5, 2, "J", 0, "A"⟩).concat_name1 =
      pyIntStr (5 * 10000) ++ pyUpper "A" ∧
    (addConcatNames ⟨1990, 2000, 5, 2, "J", 0, "A"⟩).concat_name2 =
      pyIntStr (2 * 10000) ++ pyUpper "A" ∧
    (addConcatNames ⟨1990, 2000, 5, 2, "J", 0, "A"⟩).concat_name3 =
      "0" ++ pyUpper "A" ∧
    (addConcatNames ⟨1990, 2000, 5, 2, "J", 0, "A"⟩).concat_name4 =
      "0" ++ pyUpper "A" :=
  fjc_c10_theorem [⟨1990, 2000, 5, 2, "J", "A", "", "", "", "", "", ""⟩]
    ⟨1990, 2000, 5, 2, "J", 0, "A"⟩ (by decide)
